import Mathlib

/-!
Verification development for the `pdf2pics` batch PDF-to-image conversion tool
(`src/pdf2pics.py` and `src/http_file.py`).

The embedding is shallow and executable:

* POSIX-style relative paths are component lists (`Path := List String`);
  parsing a path string splits on `'/'` and drops empty components, matching
  `pathlib.PurePosixPath` normalisation of relative paths.
* The PDF rasterisation engine (`fitz`), the PNG encoder (`PIL`), the digest
  (`hashlib.md5`) and the HTTP transport (`requests`) are external capabilities,
  modelled as deterministic functions; the per-file transport outcome is an
  oracle `netOk : Path → Bool`.
* The local filesystem is explicit state `FS` threaded through the functions:
  source PDF files (each either a parseable document or corrupt), existing
  directories, and the written image files (most recent write first).
* Python exceptions are `Except PyErr`; an uncaught exception is an `.error`
  result, a `try`/`except` block is a `match` on it.
* `ThreadPoolExecutor` in `concurrent_upload` submits one future per file and
  collects `future.result()` in submission order, so its observable value is
  the sequential `filterMap` over the input list; the worker bound
  `max_workers` only limits parallelism and has no observable effect here.
* Logging is a side channel with no observable effect on results; it is not
  modelled.
-/

namespace Pdf2Pics

/-! ## Paths -/

/-- A POSIX-style relative path as its list of components. -/
abbrev Path := List String

/-- Splits a character list at `'/'` (accumulator holds the current component
reversed). Auxiliary for `parsePath`. -/
def splitSlash : List Char → List Char → List String
  | [], acc => [String.mk acc.reverse]
  | c :: rest, acc =>
    if c = '/' then String.mk acc.reverse :: splitSlash rest []
    else splitSlash rest (c :: acc)

/-- Parses a relative path string into components, dropping empty components,
as `pathlib` normalisation does for relative paths (`Path('a//b') == Path('a/b')`). -/
def parsePath (s : String) : Path :=
  (splitSlash s.data []).filter (fun c => c != "")

/-- Renders a path back to a string, as `str(path)` does. -/
def pathToString (p : Path) : String :=
  String.intercalate "/" p

/-- The final component of a path (`PurePath.name`). -/
def baseName (p : Path) : String :=
  p.getLast?.getD ""

/-- Whether `pat` is a suffix of the characters of `s` (auxiliary). -/
def charsStart : List Char → List Char → Bool
  | [], _ => true
  | _ :: _, [] => false
  | a :: as, b :: bs => a == b && charsStart as bs

/-- String suffix test, as Python `str.endswith`. -/
def strEndsWith (s pat : String) : Bool :=
  charsStart pat.data.reverse s.data.reverse

/-- Index of the last `'.'` in a character list, as Python `str.rfind('.')`
(none if absent). Auxiliary for `stemOf`. -/
def lastDotIdx (cs : List Char) : Option Nat :=
  match cs.reverse.findIdx? (fun c => c == '.') with
  | some j => some (cs.length - 1 - j)
  | none => none

/-- The stem of a file name, as `PurePath.stem`: the name with its final suffix
removed, where a suffix needs a dot that is neither the first nor the last
character. -/
def stemOf (name : String) : String :=
  match lastDotIdx name.data with
  | some i => if 0 < i ∧ i + 1 < name.data.length then String.mk (name.data.take i) else name
  | none => name

/-- Whether `root` is a component-wise prefix of `p` (so `p.relative_to(root)`
would succeed). -/
def hasRoot : Path → Path → Bool
  | _, [] => true
  | [], _ :: _ => false
  | a :: as, r :: rs => a == r && hasRoot as rs

/-- Python `p.relative_to(root)`: the remaining components when `root` leads
`p`, otherwise a `ValueError` (here `none`). -/
def relativeTo (root p : Path) : Option Path :=
  if hasRoot p root then some (p.drop root.length) else none

/-- All component-wise prefixes of a path (the directory and its parents). -/
def prefixesOf (p : Path) : List Path :=
  (List.range (p.length + 1)).map (fun k => p.take k)

/-! ## Documents, pages and rasters (external capabilities) -/

/-- A page of a PDF document: native pixel dimensions, abstract content bytes,
and whether the rasterisation capability can render it (a damaged page makes
`page.get_pixmap` raise). -/
structure Page where
  width : Nat
  height : Nat
  content : List Nat
  renderable : Bool
deriving DecidableEq

/-- A parseable PDF document: its ordered pages. -/
structure PdfDoc where
  pages : List Page
deriving DecidableEq

/-- An RGB raster produced by `page.get_pixmap(matrix=fitz.Matrix(zoom, zoom))`. -/
structure Pixmap where
  width : Nat
  height : Nat
  samples : List Nat
deriving DecidableEq

/-- The zoom factor hardcoded in `convert_pdf_to_images` (src/pdf2pics.py line 79). -/
def zoom : Nat := 4

/-- The rasterisation capability: deterministic, and scales both axes by the
zoom factor exactly. The pixel bytes are abstracted by the page's content
(the engine is deterministic, which is all the development relies on). -/
def renderPage (pg : Page) (z : Nat) : Pixmap :=
  { width := pg.width * z, height := pg.height * z, samples := pg.content }

/-- Deterministic digest capability standing in for
`hashlib.md5(name.encode()).hexdigest()` (src/pdf2pics.py line 141): a
fixed function of the input producing a single separator-free component,
which is all the code relies on. -/
def md5hex (s : String) : String :=
  "md5" ++ toString s.data.length

/-! ## Filesystem state -/

/-- The local filesystem as seen by the program: the PDF files under the PDF
root (`none` = present but corrupt, so `fitz.open` raises), the existing
directories, and the written image files, most recent write first. -/
structure FS where
  files : List (Path × Option PdfDoc)
  dirs : List Path
  images : List (Path × Pixmap)
deriving DecidableEq

/-- Looks up a PDF file: `none` = no such file, `some none` = corrupt file,
`some (some doc)` = parseable document. -/
def lookupFile (fs : FS) (p : Path) : Option (Option PdfDoc) :=
  (fs.files.find? (fun e => e.1 == p)).map (fun e => e.2)

/-- Looks up a written image file (most recent write wins). -/
def lookupImage (fs : FS) (p : Path) : Option Pixmap :=
  (fs.images.find? (fun e => e.1 == p)).map (fun e => e.2)

/-- Writes (or overwrites) an image file, as `img.save(output_path)`. -/
def writeImage (fs : FS) (p : Path) (pix : Pixmap) : FS :=
  { fs with images := (p, pix) :: fs.images }

/-- Creates a directory and all its parents, as `mkdir(parents=True, exist_ok=True)`. -/
def mkdirP (fs : FS) (d : Path) : FS :=
  { fs with dirs := prefixesOf d ++ fs.dirs }

/-- Whether the path is an existing directory (`Path.is_dir`). -/
def isDir (fs : FS) (p : Path) : Bool :=
  fs.dirs.contains p

/-- The files matched by `pdfs.glob('**/*.pdf')` (src/pdf2pics.py line 113):
every file strictly under `base` whose name ends in `.pdf` (case-sensitive),
in filesystem enumeration order (the order of `fs.files`). -/
def globPdfs (fs : FS) (base : Path) : List Path :=
  (fs.files.map (fun e => e.1)).filter
    (fun p => hasRoot p base && p != base && strEndsWith (baseName p) ".pdf")

/-! ## Errors -/

/-- The Python exceptions relevant to the core: `fitz.open` failure (missing or
corrupt document), a failure while rendering or writing a page, and
`ValueError` (invalid input, or `relative_to` mismatch). -/
inductive PyErr where
  | documentOpenError
  | renderError
  | valueError
deriving DecidableEq

/-- Whether an `Except` result is a normal return. -/
def isOkE {α : Type} : Except PyErr α → Bool
  | .ok _ => true
  | .error _ => false

/-- Decidable equality for `Except`, needed to evaluate concrete runs. -/
instance {ε α : Type} [DecidableEq ε] [DecidableEq α] : DecidableEq (Except ε α) := fun x y =>
  match x, y with
  | .ok a, .ok b =>
    if h : a = b then .isTrue (by rw [h]) else .isFalse (fun hc => h (Except.ok.inj hc))
  | .error a, .error b =>
    if h : a = b then .isTrue (by rw [h]) else .isFalse (fun hc => h (Except.error.inj hc))
  | .ok _, .error _ => .isFalse (fun hc => Except.noConfusion hc)
  | .error _, .ok _ => .isFalse (fun hc => Except.noConfusion hc)

/-! ## src/http_file.py -/

/-- `upload_file(file_path, url)` (src/http_file.py lines 6-31): returns `None`
after logging when the local file is missing or the HTTP POST fails
(`requests.RequestException`), else `url + '/' + file_path.name`. The
transport outcome is the oracle `netOk`. -/
def upload_file (fs : FS) (netOk : Path → Bool) (file_path : String) (url : String) :
    Option String :=
  let p := parsePath file_path
  if (lookupImage fs p).isSome then
    if netOk p then some (url ++ "/" ++ baseName p) else none
  else none

/-- `concurrent_upload(file_list, url, max_workers)` (src/http_file.py lines
33-50): one future per file, submitted in list order; `future.result()` is
collected in submission order and `None` results are dropped, so the value is
the in-order `filterMap`. `max_workers` only bounds parallelism. -/
def concurrent_upload (fs : FS) (netOk : Path → Bool) (file_list : List String)
    (url : String) (max_workers : Nat) : List String :=
  file_list.filterMap (fun f => upload_file fs netOk f url)

/-! ## src/pdf2pics.py -/

/-- The startup configuration (config.ini): PDF root, output root, upload
endpoint and upload concurrency. -/
structure Config where
  pdfRoot : Path
  outputRoot : Path
  endpoint : String
  concurrency : Nat
deriving DecidableEq

/-- The image file name written for 1-based page number `n`
(`f"{pdf.stem}_{page_num+1}.png"`, src/pdf2pics.py line 85). -/
def pngName (stem : String) (n : Nat) : String :=
  stem ++ "_" ++ toString n ++ ".png"

/-- Result of the page loop of `convert_pdf_to_images`: the accumulated
relative path strings (or the first uncaught exception), the filesystem after
the writes that happened, and the ghost trace of performed writes in order. -/
structure RPOut where
  result : Except PyErr (List String)
  fs : FS
  writes : List (Path × Pixmap)
deriving DecidableEq

/-- The page loop of `convert_pdf_to_images` (src/pdf2pics.py lines 82-88):
for each page render at `zoom`, save `{stem}_{page_num+1}.png` into `outDir`,
and record the path relative to `root` (the output root). A rendering failure
raises after the earlier pages were already written; a `relative_to` failure
raises after the current page was written. -/
def renderPages (root : Path) (stem : String) (outDir : Path) :
    List Page → Nat → FS → RPOut
  | [], _, fs => ⟨.ok [], fs, []⟩
  | pg :: rest, idx, fs =>
    if pg.renderable then
      let pix := renderPage pg zoom
      let outPath := outDir ++ [pngName stem (idx + 1)]
      let fs1 := writeImage fs outPath pix
      match relativeTo root outPath with
      | some rel =>
        let o := renderPages root stem outDir rest (idx + 1) fs1
        ⟨o.result.map (fun l => pathToString rel :: l), o.fs, (outPath, pix) :: o.writes⟩
      | none => ⟨.error .valueError, fs1, [(outPath, pix)]⟩
    else ⟨.error .renderError, fs, []⟩

/-- Result of `convert_pdf_to_images`: the returned list (or uncaught
exception), the filesystem, whether `fitz.open` succeeded, whether
`doc.close()` ran before control left the function, and the ghost write trace. -/
structure ConvOut where
  result : Except PyErr (List String)
  fs : FS
  opened : Bool
  closed : Bool
  writes : List (Path × Pixmap)
deriving DecidableEq

/-- `convert_pdf_to_images(pdf, output_dir, return_pic_url)` (src/pdf2pics.py
lines 67-96): open the document (`DocumentOpenError` when missing or corrupt),
create the output directory, render every page, close the document, then if
`return_pic_url` upload `str(OUTPUT_ROOT / image)` for each image and return
the uploaded URLs, else return the relative path strings. `doc.close()` is
only reached after the page loop completes, so a rendering error leaves the
handle open. -/
def convert_pdf_to_images (cfg : Config) (netOk : Path → Bool) (fs : FS)
    (pdf : Path) (output_dir : Path) (return_pic_url : Bool) : ConvOut :=
  match lookupFile fs pdf with
  | some (some doc) =>
    let fs1 := mkdirP fs output_dir
    let stem := stemOf (baseName pdf)
    let o := renderPages cfg.outputRoot stem output_dir doc.pages 0 fs1
    match o.result with
    | .error e => ⟨.error e, o.fs, true, false, o.writes⟩
    | .ok imgs =>
      if return_pic_url then
        let abs := imgs.map (fun img => pathToString (cfg.outputRoot ++ parsePath img))
        ⟨.ok (concurrent_upload o.fs netOk abs cfg.endpoint cfg.concurrency),
          o.fs, true, true, o.writes⟩
      else ⟨.ok imgs, o.fs, true, true, o.writes⟩
  | _ => ⟨.error .documentOpenError, fs, false, false, []⟩

/-- Python `dict` assignment `result[k] = v`: replaces the value in place when
the key exists, else appends the binding. -/
def insertAssoc (m : List (String × List String)) (k : String) (v : List String) :
    List (String × List String) :=
  if m.any (fun e => e.1 == k) then m.map (fun e => if e.1 == k then (k, v) else e)
  else m ++ [(k, v)]

/-- The output directory `OUTPUT_ROOT / pdfs_dir / Path(pdf).stem` used by the
`convert_pdfs` loop (src/pdf2pics.py line 122). -/
def outSubdirFor (cfg : Config) (pdfs_dir : String) (pdf : Path) : Path :=
  cfg.outputRoot ++ parsePath pdfs_dir ++ [stemOf (baseName pdf)]

/-- The loop of `convert_pdfs` (src/pdf2pics.py lines 119-128). The `try`
wraps the whole loop: the first exception from any document's conversion (or
from `relative_to`) is logged and the mapping accumulated so far is returned.
The call site omits `return_pic_url`, so the Python default `True` applies to
every conversion. -/
def convertLoop (cfg : Config) (netOk : Path → Bool) (pdfs_dir : String) :
    List Path → FS → List (String × List String) →
    List (String × List String) × FS
  | [], fs, acc => (acc, fs)
  | pdf :: rest, fs, acc =>
    let o := convert_pdf_to_images cfg netOk fs pdf (outSubdirFor cfg pdfs_dir pdf) true
    match o.result with
    | .ok imgs =>
      match relativeTo cfg.pdfRoot pdf with
      | some rel => convertLoop cfg netOk pdfs_dir rest o.fs (insertAssoc acc (pathToString rel) imgs)
      | none => (acc, o.fs)
    | .error _ => (acc, o.fs)

/-- The `convert_pdfs` tool (src/pdf2pics.py lines 99-128): resolve
`PDF_ROOT / pdfs_dir`; raise `ValueError` unless it is a directory; glob
`**/*.pdf`; convert each document in discovery order, stopping at (and
swallowing) the first exception. Its `return_pic_url` parameter is accepted
but never forwarded to `convert_pdf_to_images`. -/
def convert_pdfs (cfg : Config) (netOk : Path → Bool) (fs : FS)
    (pdfs_dir : String) (return_pic_url : Bool) :
    Except PyErr (List (String × List String)) × FS :=
  let pdfs := cfg.pdfRoot ++ parsePath pdfs_dir
  if isDir fs pdfs then
    let o := convertLoop cfg netOk pdfs_dir (globPdfs fs pdfs) fs []
    (.ok o.1, o.2)
  else (.error .valueError, fs)

/-- Result of the `convert_pdf` tool: the single-entry mapping (or the
uncaught exception), the filesystem, and the ghost write trace. -/
structure ToolOut where
  result : Except PyErr (List (String × List String))
  fs : FS
  writes : List (Path × Pixmap)
deriving DecidableEq

/-- The `convert_pdf` tool (src/pdf2pics.py lines 130-142): converts
`PDF_ROOT / pdf_name` into `OUTPUT_ROOT / md5(pdf_name)` and returns the
single-entry mapping; exceptions propagate (no `try` here). -/
def convert_pdf (cfg : Config) (netOk : Path → Bool) (fs : FS)
    (pdf_name : String) (return_pic_url : Bool) : ToolOut :=
  let o := convert_pdf_to_images cfg netOk fs (cfg.pdfRoot ++ parsePath pdf_name)
    (cfg.outputRoot ++ [md5hex pdf_name]) return_pic_url
  ⟨o.result.map (fun l => [(pdf_name, l)]), o.fs, o.writes⟩

/-! ## Derived predicates used in statements -/

/-- Whether a discovered document will convert without an exception: it opens
and every page renders. (Upload failures never raise; `relative_to` on output
paths cannot fail when the output directory sits under the output root.) -/
def docOk (fs : FS) (pdf : Path) : Bool :=
  match lookupFile fs pdf with
  | some (some d) => d.pages.all (fun pg => pg.renderable)
  | _ => false

/-- The mapping key `str(pdf.relative_to(PDF_ROOT))` of a discovered document. -/
def keyOf (cfg : Config) (p : Path) : String :=
  pathToString (p.drop cfg.pdfRoot.length)

/-- The keys of a `convert_pdfs` result (empty on an uncaught exception). -/
def mapKeysE (e : Except PyErr (List (String × List String))) : List String :=
  match e with
  | .ok m => m.map (fun kv => kv.1)
  | .error _ => []

/-- The entries of a `convert_pdfs` result (empty on an uncaught exception). -/
def mapEntriesE (e : Except PyErr (List (String × List String))) :
    List (String × List String) :=
  match e with
  | .ok m => m
  | .error _ => []

/-- Whether one individual upload of `f` succeeds: the local file exists and
the transport accepts it. -/
def uploadAccepted (fs : FS) (netOk : Path → Bool) (f : String) : Bool :=
  (lookupImage fs (parsePath f)).isSome && netOk (parsePath f)

/-! ## Path lemmas -/

theorem hasRoot_nil (p : Path) : hasRoot p [] = true := by
  cases p <;> rfl

theorem hasRoot_append (r t : Path) : hasRoot (r ++ t) r = true := by
  induction r with
  | nil => exact hasRoot_nil t
  | cons a rs ih => simp [hasRoot, ih]

theorem hasRoot_len (r : Path) : ∀ (p : Path), hasRoot p r = true → r.length ≤ p.length := by
  induction r with
  | nil => intro p _; simp
  | cons a rs ih =>
    intro p h
    cases p with
    | nil => simp [hasRoot] at h
    | cons b ps =>
      simp only [hasRoot, Bool.and_eq_true, beq_iff_eq] at h
      simpa using Nat.succ_le_succ (ih ps h.2)

theorem hasRoot_extend (r : Path) : ∀ (p t : Path), hasRoot p r = true →
    hasRoot (p ++ t) r = true := by
  induction r with
  | nil => intro p t _; cases p ++ t <;> rfl
  | cons a rs ih =>
    intro p t h
    cases p with
    | nil => simp [hasRoot] at h
    | cons b ps =>
      simp only [hasRoot, Bool.and_eq_true, beq_iff_eq] at h
      simp [hasRoot, h.1, ih ps t h.2]

theorem hasRoot_recover (r : Path) : ∀ (p : Path), hasRoot p r = true →
    r ++ p.drop r.length = p := by
  induction r with
  | nil => intro p _; simp
  | cons a rs ih =>
    intro p h
    cases p with
    | nil => simp [hasRoot] at h
    | cons b ps =>
      simp only [hasRoot, Bool.and_eq_true, beq_iff_eq] at h
      simp [h.1, ih ps h.2]

theorem hasRoot_transHead (a : Path) : ∀ (b p : Path), hasRoot p (a ++ b) = true →
    hasRoot p a = true := by
  induction a with
  | nil => intro b p _; cases p <;> rfl
  | cons x xs ih =>
    intro b p h
    cases p with
    | nil => simp [hasRoot] at h
    | cons y ps =>
      simp only [List.cons_append, hasRoot, Bool.and_eq_true, beq_iff_eq] at h
      simp [hasRoot, h.1, ih b ps h.2]

theorem relativeTo_eq (r p : Path) (h : hasRoot p r = true) :
    relativeTo r p = some (p.drop r.length) := by
  simp [relativeTo, h]

theorem drop_append_of_root (r outDir : Path) (x : String) (h : hasRoot outDir r = true) :
    (outDir ++ [x]).drop r.length = outDir.drop r.length ++ [x] :=
  List.drop_append_of_le_length (hasRoot_len r outDir h)

theorem mem_prefixesOf (d q : Path) (h : hasRoot d q = true) : q ∈ prefixesOf d := by
  have hq : d.take q.length = q := by
    have := hasRoot_recover q d h
    conv_lhs => rw [← this]
    simp [List.take_append_of_le_length]
  have hlen : q.length ≤ d.length := hasRoot_len q d h
  simp only [prefixesOf, List.mem_map, List.mem_range]
  exact ⟨q.length, Nat.lt_succ_of_le hlen, hq⟩

/-! ## Filesystem lemmas -/

theorem lookupFile_congr (fs fs' : FS) (p : Path) (h : fs.files = fs'.files) :
    lookupFile fs p = lookupFile fs' p := by
  simp [lookupFile, h]

theorem docOk_congr (fs fs' : FS) (p : Path) (h : fs.files = fs'.files) :
    docOk fs p = docOk fs' p := by
  simp [docOk, lookupFile_congr fs fs' p h]

theorem glob_hasRoot (fs : FS) (base p : Path) (h : p ∈ globPdfs fs base) :
    hasRoot p base = true := by
  simp only [globPdfs, List.mem_filter, Bool.and_eq_true] at h
  exact h.2.1.1

/-! ## Lemmas about the page loop -/

theorem isOkE_map {α β : Type} (f : α → β) (e : Except PyErr α) :
    isOkE (e.map f) = isOkE e := by
  cases e <;> rfl

theorem rp_files (root : Path) (stem : String) (outDir : Path) :
    ∀ (pages : List Page) (idx : Nat) (fs : FS),
      (renderPages root stem outDir pages idx fs).fs.files = fs.files := by
  intro pages
  induction pages with
  | nil => intro idx fs; rfl
  | cons pg rest ih =>
    intro idx fs
    cases hr : pg.renderable with
    | false => simp [renderPages, hr]
    | true =>
      cases hrel : relativeTo root (outDir ++ [pngName stem (idx + 1)]) with
      | some rel => simp [renderPages, hr, hrel, ih, writeImage]
      | none => simp [renderPages, hr, hrel, writeImage]

theorem rp_dirs (root : Path) (stem : String) (outDir : Path) :
    ∀ (pages : List Page) (idx : Nat) (fs : FS),
      (renderPages root stem outDir pages idx fs).fs.dirs = fs.dirs := by
  intro pages
  induction pages with
  | nil => intro idx fs; rfl
  | cons pg rest ih =>
    intro idx fs
    cases hr : pg.renderable with
    | false => simp [renderPages, hr]
    | true =>
      cases hrel : relativeTo root (outDir ++ [pngName stem (idx + 1)]) with
      | some rel => simp [renderPages, hr, hrel, ih, writeImage]
      | none => simp [renderPages, hr, hrel, writeImage]

theorem rp_indep (root : Path) (stem : String) (outDir : Path) :
    ∀ (pages : List Page) (idx : Nat) (fs fs' : FS),
      (renderPages root stem outDir pages idx fs).result
        = (renderPages root stem outDir pages idx fs').result ∧
      (renderPages root stem outDir pages idx fs).writes
        = (renderPages root stem outDir pages idx fs').writes := by
  intro pages
  induction pages with
  | nil => intro idx fs fs'; exact ⟨rfl, rfl⟩
  | cons pg rest ih =>
    intro idx fs fs'
    cases hr : pg.renderable with
    | false => simp [renderPages, hr]
    | true =>
      cases hrel : relativeTo root (outDir ++ [pngName stem (idx + 1)]) with
      | some rel =>
        have h := ih (idx + 1)
          (writeImage fs (outDir ++ [pngName stem (idx + 1)]) (renderPage pg zoom))
          (writeImage fs' (outDir ++ [pngName stem (idx + 1)]) (renderPage pg zoom))
        simp only [renderPages, hr, if_true, hrel]
        exact ⟨by rw [h.1], by rw [h.2]⟩
      | none => simp [renderPages, hr, hrel]

theorem rp_ok_iff (root : Path) (stem : String) (outDir : Path)
    (h : hasRoot outDir root = true) :
    ∀ (pages : List Page) (idx : Nat) (fs : FS),
      isOkE (renderPages root stem outDir pages idx fs).result
        = pages.all (fun pg => pg.renderable) := by
  intro pages
  induction pages with
  | nil => intro idx fs; rfl
  | cons pg rest ih =>
    intro idx fs
    cases hr : pg.renderable with
    | false => simp [renderPages, hr, isOkE]
    | true =>
      have hrel : relativeTo root (outDir ++ [pngName stem (idx + 1)])
          = some ((outDir ++ [pngName stem (idx + 1)]).drop root.length) :=
        relativeTo_eq root _ (hasRoot_extend root outDir [pngName stem (idx + 1)] h)
      simp [renderPages, hr, hrel, isOkE_map, ih]

theorem rp_spec (root : Path) (stem : String) (outDir : Path)
    (h : hasRoot outDir root = true) :
    ∀ (pages : List Page) (idx : Nat) (fs : FS),
      pages.all (fun pg => pg.renderable) = true →
      renderPages root stem outDir pages idx fs =
        ⟨.ok ((pages.enumFrom idx).map (fun e =>
            pathToString (outDir.drop root.length ++ [pngName stem (e.1 + 1)]))),
         { fs with images :=
            ((pages.enumFrom idx).map (fun e =>
              (outDir ++ [pngName stem (e.1 + 1)], renderPage e.2 zoom))).reverse
              ++ fs.images },
         (pages.enumFrom idx).map (fun e =>
            (outDir ++ [pngName stem (e.1 + 1)], renderPage e.2 zoom))⟩ := by
  intro pages
  induction pages with
  | nil => intro idx fs _; rfl
  | cons pg rest ih =>
    intro idx fs hall
    simp only [List.all_cons, Bool.and_eq_true] at hall
    have hrel : relativeTo root (outDir ++ [pngName stem (idx + 1)])
        = some ((outDir ++ [pngName stem (idx + 1)]).drop root.length) :=
      relativeTo_eq root _ (hasRoot_extend root outDir [pngName stem (idx + 1)] h)
    have hdrop := drop_append_of_root root outDir (pngName stem (idx + 1)) h
    simp only [renderPages, hall.1, if_true, hrel,
      ih (idx + 1) (writeImage fs (outDir ++ [pngName stem (idx + 1)]) (renderPage pg zoom)) hall.2]
    simp [List.enumFrom, writeImage, hdrop, Except.map]

/-! ## Lemmas about `convert_pdf_to_images` -/

theorem conv_files (cfg : Config) (netOk : Path → Bool) (fs : FS) (pdf outDir : Path)
    (ret : Bool) :
    (convert_pdf_to_images cfg netOk fs pdf outDir ret).fs.files = fs.files := by
  rcases hl : lookupFile fs pdf with _ | (_ | doc)
  · simp [convert_pdf_to_images, hl]
  · simp [convert_pdf_to_images, hl]
  · have hf := rp_files cfg.outputRoot (stemOf (baseName pdf)) outDir doc.pages 0
      (mkdirP fs outDir)
    cases ho : (renderPages cfg.outputRoot (stemOf (baseName pdf)) outDir doc.pages 0
        (mkdirP fs outDir)).result with
    | error e =>
      simp only [convert_pdf_to_images, hl, ho]
      rw [hf]; rfl
    | ok imgs =>
      cases ret <;> simp only [convert_pdf_to_images, hl, ho, Bool.false_eq_true,
        if_false, if_true] <;> (rw [hf]; rfl)

theorem conv_ok_iff (cfg : Config) (netOk : Path → Bool) (fs : FS) (pdf outDir : Path)
    (ret : Bool) (h : hasRoot outDir cfg.outputRoot = true) :
    isOkE (convert_pdf_to_images cfg netOk fs pdf outDir ret).result = docOk fs pdf := by
  rcases hl : lookupFile fs pdf with _ | (_ | doc)
  · simp [convert_pdf_to_images, hl, docOk, isOkE]
  · simp [convert_pdf_to_images, hl, docOk, isOkE]
  · have hrp := rp_ok_iff cfg.outputRoot (stemOf (baseName pdf)) outDir h doc.pages 0
      (mkdirP fs outDir)
    cases ho : (renderPages cfg.outputRoot (stemOf (baseName pdf)) outDir doc.pages 0
        (mkdirP fs outDir)).result with
    | error e =>
      rw [ho] at hrp
      simp [convert_pdf_to_images, hl, ho, docOk, isOkE, ← hrp]
    | ok imgs =>
      rw [ho] at hrp
      cases ret <;> simp [convert_pdf_to_images, hl, ho, docOk, isOkE, ← hrp]

theorem conv_indep_noupload (cfg : Config) (netOk : Path → Bool) (pdf outDir : Path)
    (fs fs' : FS) (h : lookupFile fs' pdf = lookupFile fs pdf) :
    (convert_pdf_to_images cfg netOk fs' pdf outDir false).result
      = (convert_pdf_to_images cfg netOk fs pdf outDir false).result ∧
    (convert_pdf_to_images cfg netOk fs' pdf outDir false).writes
      = (convert_pdf_to_images cfg netOk fs pdf outDir false).writes := by
  rcases hl : lookupFile fs pdf with _ | (_ | doc) <;> rw [hl] at h
  · simp [convert_pdf_to_images, hl, h]
  · simp [convert_pdf_to_images, hl, h]
  · obtain ⟨hres, hwr⟩ := rp_indep cfg.outputRoot (stemOf (baseName pdf)) outDir doc.pages 0
      (mkdirP fs' outDir) (mkdirP fs outDir)
    cases ho : (renderPages cfg.outputRoot (stemOf (baseName pdf)) outDir doc.pages 0
        (mkdirP fs outDir)).result with
    | error e =>
      have ho' : (renderPages cfg.outputRoot (stemOf (baseName pdf)) outDir doc.pages 0
          (mkdirP fs' outDir)).result = .error e := by rw [hres, ho]
      simp only [convert_pdf_to_images, hl, h, ho, ho']
      exact ⟨by trivial, hwr⟩
    | ok imgs =>
      have ho' : (renderPages cfg.outputRoot (stemOf (baseName pdf)) outDir doc.pages 0
          (mkdirP fs' outDir)).result = .ok imgs := by rw [hres, ho]
      simp only [convert_pdf_to_images, hl, h, ho, ho', Bool.false_eq_true, if_false]
      exact ⟨by trivial, hwr⟩

/-! ## Lemmas about `insertAssoc` and `takeWhile` -/

theorem insertAssoc_fresh (m : List (String × List String)) (k : String)
    (v : List String) (h : k ∉ m.map (fun e => e.1)) :
    insertAssoc m k v = m ++ [(k, v)] := by
  cases hb : m.any (fun e => e.1 == k) with
  | true =>
    exfalso
    obtain ⟨e, he, hek⟩ := List.any_eq_true.mp hb
    exact h (List.mem_map.mpr ⟨e, he, by simpa using hek⟩)
  | false => simp [insertAssoc, hb]

theorem insertAssoc_mem (m : List (String × List String)) (k : String)
    (v : List String) (kv : String × List String) (h : kv ∈ insertAssoc m k v) :
    kv = (k, v) ∨ kv ∈ m := by
  unfold insertAssoc at h
  split at h
  · obtain ⟨e, he, hek⟩ := List.mem_map.mp h
    by_cases hk : e.1 == k
    · simp only [hk, if_true] at hek
      left; exact hek.symm
    · simp only [hk, Bool.false_eq_true, if_false] at hek
      right; exact hek ▸ he
  · rcases List.mem_append.mp h with h1 | h2
    · right; exact h1
    · left; simpa using h2

theorem takeWhileCongr {α : Type} (p q : α → Bool) :
    ∀ (l : List α), (∀ x ∈ l, p x = q x) → l.takeWhile p = l.takeWhile q := by
  intro l
  induction l with
  | nil => intro _; rfl
  | cons a l ih =>
    intro h
    have ha := h a (by simp)
    cases hq : q a with
    | true =>
      rw [List.takeWhile_cons, List.takeWhile_cons, ha, hq]
      simp only [if_true]
      rw [ih (fun x hx => h x (by simp [hx]))]
    | false =>
      rw [List.takeWhile_cons, List.takeWhile_cons, ha, hq]
      simp

theorem takeWhileMem {α : Type} (p : α → Bool) :
    ∀ (l : List α) (x : α), x ∈ l.takeWhile p → x ∈ l := by
  intro l
  induction l with
  | nil => intro x h; simp [List.takeWhile] at h
  | cons a l ih =>
    intro x h
    rw [List.takeWhile_cons] at h
    cases hp : p a with
    | true =>
      rw [hp] at h
      simp only [if_true] at h
      rcases List.mem_cons.mp h with h1 | h1
      · simp [h1]
      · simp [ih x h1]
    | false => rw [hp] at h; simp at h

/-! ## Lemmas about the `convert_pdfs` loop -/

theorem outSubdir_hasRoot (cfg : Config) (dir : String) (pdf : Path) :
    hasRoot (outSubdirFor cfg dir pdf) cfg.outputRoot = true := by
  unfold outSubdirFor
  rw [List.append_assoc]
  exact hasRoot_append cfg.outputRoot (parsePath dir ++ [stemOf (baseName pdf)])

theorem convertLoop_files (cfg : Config) (netOk : Path → Bool) (dir : String) :
    ∀ (L : List Path) (fs : FS) (acc : List (String × List String)),
      (convertLoop cfg netOk dir L fs acc).2.files = fs.files := by
  intro L
  induction L with
  | nil => intro fs acc; rfl
  | cons pdf rest ih =>
    intro fs acc
    have hcf := conv_files cfg netOk fs pdf (outSubdirFor cfg dir pdf) true
    cases ho : (convert_pdf_to_images cfg netOk fs pdf (outSubdirFor cfg dir pdf) true).result with
    | error e => simp only [convertLoop, ho]; exact hcf
    | ok imgs =>
      cases hrel : relativeTo cfg.pdfRoot pdf with
      | some rel => simp only [convertLoop, ho, hrel]; rw [ih, hcf]
      | none => simp only [convertLoop, ho, hrel]; exact hcf

theorem convertLoop_keys (cfg : Config) (netOk : Path → Bool) (dir : String) :
    ∀ (L : List Path) (fs : FS) (acc : List (String × List String)),
      (∀ p ∈ L, hasRoot p cfg.pdfRoot = true) →
      (acc.map (fun e => e.1) ++ L.map (keyOf cfg)).Nodup →
      (convertLoop cfg netOk dir L fs acc).1.map (fun e => e.1)
        = acc.map (fun e => e.1) ++ (L.takeWhile (fun p => docOk fs p)).map (keyOf cfg) := by
  intro L
  induction L with
  | nil => intro fs acc _ _; simp [convertLoop]
  | cons pdf rest ih =>
    intro fs acc hroot hnd
    have hok := conv_ok_iff cfg netOk fs pdf (outSubdirFor cfg dir pdf) true
      (outSubdir_hasRoot cfg dir pdf)
    cases hd : docOk fs pdf with
    | false =>
      rw [hd] at hok
      cases ho : (convert_pdf_to_images cfg netOk fs pdf (outSubdirFor cfg dir pdf) true).result with
      | ok imgs => rw [ho] at hok; simp [isOkE] at hok
      | error e =>
        simp only [convertLoop, ho]
        rw [List.takeWhile_cons, hd]
        simp
    | true =>
      rw [hd] at hok
      cases ho : (convert_pdf_to_images cfg netOk fs pdf (outSubdirFor cfg dir pdf) true).result with
      | error e => rw [ho] at hok; simp [isOkE] at hok
      | ok imgs =>
        have hrpdf : hasRoot pdf cfg.pdfRoot = true := hroot pdf (by simp)
        have hrel : relativeTo cfg.pdfRoot pdf = some (pdf.drop cfg.pdfRoot.length) :=
          relativeTo_eq cfg.pdfRoot pdf hrpdf
        have hfresh : pathToString (pdf.drop cfg.pdfRoot.length) ∉ acc.map (fun e => e.1) := by
          rcases List.nodup_append.mp hnd with ⟨h1, h2, hdisj⟩
          intro hin
          exact hdisj hin (by simp [keyOf])
        simp only [convertLoop, ho, hrel]
        rw [insertAssoc_fresh acc (pathToString (pdf.drop cfg.pdfRoot.length)) imgs hfresh]
        have hroot' : ∀ p ∈ rest, hasRoot p cfg.pdfRoot = true :=
          fun p hp => hroot p (by simp [hp])
        have hnd' : ((acc ++ [(pathToString (pdf.drop cfg.pdfRoot.length), imgs)]).map
            (fun e => e.1) ++ rest.map (keyOf cfg)).Nodup := by
          simpa [keyOf, List.append_assoc] using hnd
        rw [ih (convert_pdf_to_images cfg netOk fs pdf (outSubdirFor cfg dir pdf) true).fs
          (acc ++ [(pathToString (pdf.drop cfg.pdfRoot.length), imgs)]) hroot' hnd']
        have hfiles := conv_files cfg netOk fs pdf (outSubdirFor cfg dir pdf) true
        rw [takeWhileCongr _ _ rest (fun x _ => docOk_congr _ fs x hfiles)]
        rw [List.takeWhile_cons, hd]
        simp [keyOf, List.append_assoc]

theorem convertLoop_mem (cfg : Config) (netOk : Path → Bool) (dir : String) :
    ∀ (L : List Path) (fs : FS) (acc : List (String × List String))
      (kv : String × List String), kv ∈ (convertLoop cfg netOk dir L fs acc).1 →
      kv ∈ acc ∨ ∃ (pdf : Path) (fsi : FS) (rel : Path), pdf ∈ L ∧
        relativeTo cfg.pdfRoot pdf = some rel ∧ kv.1 = pathToString rel ∧
        (convert_pdf_to_images cfg netOk fsi pdf (outSubdirFor cfg dir pdf) true).result
          = .ok kv.2 := by
  intro L
  induction L with
  | nil => intro fs acc kv h; left; simpa [convertLoop] using h
  | cons pdf rest ih =>
    intro fs acc kv h
    cases ho : (convert_pdf_to_images cfg netOk fs pdf (outSubdirFor cfg dir pdf) true).result with
    | error e =>
      simp only [convertLoop, ho] at h
      exact .inl h
    | ok imgs =>
      cases hrel : relativeTo cfg.pdfRoot pdf with
      | none =>
        simp only [convertLoop, ho, hrel] at h
        exact .inl h
      | some rel =>
        simp only [convertLoop, ho, hrel] at h
        rcases ih _ _ kv h with hin | ⟨pdf', fsi, rel', hmem, h1, h2, h3⟩
        · rcases insertAssoc_mem acc (pathToString rel) imgs kv hin with heq | hacc
          · right
            exact ⟨pdf, fs, rel, by simp, hrel, by simp [heq], by simp [heq, ho]⟩
          · left; exact hacc
        · right; exact ⟨pdf', fsi, rel', by simp [hmem], h1, h2, h3⟩

/-! ## Lemmas about the uploader -/

theorem upload_file_eq (fs : FS) (netOk : Path → Bool) (f url : String) :
    upload_file fs netOk f url
      = if uploadAccepted fs netOk f then some (url ++ "/" ++ baseName (parsePath f))
        else none := by
  unfold upload_file uploadAccepted
  cases hex : (lookupImage fs (parsePath f)).isSome <;>
    cases hnet : netOk (parsePath f) <;> simp [hex, hnet]

theorem concurrent_upload_eq (fs : FS) (netOk : Path → Bool) (file_list : List String)
    (url : String) (mw : Nat) :
    concurrent_upload fs netOk file_list url mw
      = (file_list.filter (fun f => uploadAccepted fs netOk f)).map
          (fun f => url ++ "/" ++ baseName (parsePath f)) := by
  induction file_list with
  | nil => rfl
  | cons f rest ih =>
    have ih' := ih
    simp only [concurrent_upload] at ih' ⊢
    rw [List.filterMap_cons, List.filter_cons, upload_file_eq]
    cases ha : uploadAccepted fs netOk f <;> simp [ha, ih']

/-! ## Concrete fixtures for witnesses and counterexamples -/

/-- A sample configuration: PDF root `r`, output root `o`, endpoint `http://e`. -/
def cfgEx : Config := ⟨["r"], ["o"], "http://e", 5⟩

/-- Transport oracle with every upload succeeding. -/
def netAll : Path → Bool := fun _ => true

/-- A renderable page with native dimensions 2 by 3. -/
def pageA : Page := ⟨2, 3, [7], true⟩

/-- A valid one-page document. -/
def docA : PdfDoc := ⟨[pageA]⟩

/-- A page the rasterisation capability fails on. -/
def pageBad : Page := ⟨2, 3, [7], false⟩

/-- A document whose only page fails to render. -/
def docBad : PdfDoc := ⟨[pageBad]⟩

/-- Directory `docs` with one corrupt document first in discovery order and
three valid documents after it. -/
def fsC1 : FS := ⟨[(["r","docs","bad.pdf"], none), (["r","docs","a.pdf"], some docA),
  (["r","docs","b.pdf"], some docA), (["r","docs","c.pdf"], some docA)], [["r","docs"]], []⟩

/-- Directory `d` with a single valid one-page document `x.pdf`. -/
def fsC2 : FS := ⟨[(["r","d","x.pdf"], some docA)], [["r","d"]], []⟩

/-- A single valid one-page document `d.pdf` directly under the PDF root. -/
def fsC3 : FS := ⟨[(["r","d.pdf"], some docA)], [], []⟩

/-- A single one-page document at `a/b/c.pdf` under the PDF root, with
directory `a` present. -/
def fsC5 : FS := ⟨[(["r","a","b","c.pdf"], some docA)], [["r","a"]], []⟩

/-- A valid document `x.pdf` directly under the PDF root, which is itself a
directory; `x.pdf` is a file, not a directory. -/
def fsC6 : FS := ⟨[(["r","x.pdf"], some docA)], [["r"]], []⟩

/-- Directory `w` with a valid document, then a corrupt one, then a valid one. -/
def fsC7 : FS := ⟨[(["r","w","a.pdf"], some docA), (["r","w","bad.pdf"], none),
  (["r","w","c.pdf"], some docA)], [["r","w"]], []⟩

/-- A document whose only page cannot be rendered. -/
def fsC8 : FS := ⟨[(["r","bad.pdf"], some docBad)], [], []⟩

/-- A single valid one-page document `g.pdf` under the PDF root. -/
def fsGood : FS := ⟨[(["r","g.pdf"], some docA)], [], []⟩

/-! ## Claim C2 -/

/-- Claim C2: with `return_pic_url = false` both tools were claimed to return
local relative paths and perform no upload. The code of `convert_pdfs` never
forwards its `return_pic_url` parameter (src/pdf2pics.py line 124), so the
Python default `True` applies and remote URLs are returned even when the
caller passed `false`: on a directory with one one-page document and all
uploads succeeding, `convert_pdfs` with `return_pic_url = false` returns the
upload URL `http://e/x_1.png`, not the local relative path `d/x/x_1.png`. -/
theorem c2_flag_ignored_eval :
    (convert_pdfs cfgEx netAll fsC2 "d" false).1
      = .ok [("d/x.pdf", ["http://e/x_1.png"])] ∧
    (convert_pdfs cfgEx netAll fsC2 "d" false).1
      ≠ .ok [("d/x.pdf", ["d/x/x_1.png"])] := by decide

/-! ## Claim C4 -/

/-- Claim C4 (confirmed): the batch uploader returns exactly one entry per
succeeding individual upload, each equal to `endpoint + '/' + basename(path)`,
and a failing item (missing local file or refused transport) is omitted
without aborting the batch: the result is exactly the in-order image of the
accepted inputs, so its length is the number of successes. -/
theorem c4_uploader_partial_failure (fs : FS) (netOk : Path → Bool)
    (file_list : List String) (url : String) (max_workers : Nat) :
    concurrent_upload fs netOk file_list url max_workers
      = (file_list.filter (fun f => uploadAccepted fs netOk f)).map
          (fun f => url ++ "/" ++ baseName (parsePath f)) ∧
    (concurrent_upload fs netOk file_list url max_workers).length
      = (file_list.filter (fun f => uploadAccepted fs netOk f)).length := by
  refine ⟨concurrent_upload_eq fs netOk file_list url max_workers, ?_⟩
  rw [concurrent_upload_eq]
  simp

/-! ## Claim C5 -/

/-- Claim C5 is false as stated: no path flattening exists in the code. For
the claimed scenario (single one-page document `a/b/c.pdf`, upload enabled and
succeeding) the mapping value is `http://e/c_1.png` — the upload URL uses only
the basename `c_1.png` (src/http_file.py line 26) — not the flattened
`http://e/a_b_c-1.png` the claim predicts. -/
theorem c5_counterexample :
    (convert_pdfs cfgEx netAll fsC5 "a" true).1
      = .ok [("a/b/c.pdf", ["http://e/c_1.png"])] ∧
    (convert_pdfs cfgEx netAll fsC5 "a" true).1
      ≠ .ok [("a/b/c.pdf", ["http://e/a_b_c-1.png"])] := by decide

/-- Claim C5 amended: no flattening is performed; each rendered image is
uploaded under its basename `{stem}_{page}.png`, so the one-page document
`a/b/c.pdf` under the root with upload enabled and succeeding yields the
mapping `{"a/b/c.pdf": ["<endpoint>/c_1.png"]}`. -/
theorem c5_amended_end_to_end :
    (convert_pdfs cfgEx netAll fsC5 "a" true).1
      = .ok [("a/b/c.pdf", [cfgEx.endpoint ++ "/c_1.png"])] := by decide

/-! ## Claim C6 -/

/-- Claim C6 is false as stated: a resolved path that is a valid document but
not a directory was claimed to be treated as a one-element set, but
`convert_pdfs` raises `ValueError` for it (src/pdf2pics.py line 116). -/
theorem c6_counterexample :
    lookupFile fsC6 (cfgEx.pdfRoot ++ parsePath "x.pdf") = some (some docA) ∧
    (convert_pdfs cfgEx netAll fsC6 "x.pdf" true).1 = .error .valueError := by decide

/-- Claim C6 amended: discovery accepts only directories — whenever the
resolved input path is not a directory (even when it is a valid document),
`convert_pdfs` fails with the input-validation error and leaves the
filesystem unchanged. -/
theorem c6_amended_dir_only (cfg : Config) (netOk : Path → Bool) (fs : FS)
    (dir : String) (ret : Bool)
    (h : isDir fs (cfg.pdfRoot ++ parsePath dir) = false) :
    convert_pdfs cfg netOk fs dir ret = (.error .valueError, fs) := by
  simp [convert_pdfs, h]

/-- Witness for the amended claim C6 at a concrete input: a valid document
path that is not a directory is rejected. -/
theorem c6_witness :
    isDir fsC6 (cfgEx.pdfRoot ++ parsePath "x.pdf") = false ∧
    convert_pdfs cfgEx netAll fsC6 "x.pdf" true = (.error .valueError, fsC6) :=
  ⟨by decide, c6_amended_dir_only cfgEx netAll fsC6 "x.pdf" true (by decide)⟩

/-! ## Claim C10 -/

/-- Claim C10 (confirmed): the concurrent uploader's result preserves input
order — `future.result()` is collected in submission order, so the successful
URLs form the image of an order-preserving sublist of the input list. -/
theorem c10_upload_order (fs : FS) (netOk : Path → Bool) (file_list : List String)
    (url : String) (max_workers : Nat) :
    ∃ sub : List String, List.Sublist sub file_list ∧
      concurrent_upload fs netOk file_list url max_workers
        = sub.map (fun f => url ++ "/" ++ baseName (parsePath f)) :=
  ⟨file_list.filter (fun f => uploadAccepted fs netOk f), List.filter_sublist file_list,
    concurrent_upload_eq fs netOk file_list url max_workers⟩

/-! ## Claim C1 -/

/-- Claim C1 is false as stated: with 3 valid documents and 1 corrupt document
the batch was claimed to return exactly 3 entries regardless of where the
corrupt document falls. The `try` of `convert_pdfs` wraps the whole loop
(src/pdf2pics.py lines 119-127), so with the corrupt document first in
discovery order the call returns an empty mapping (0 entries, not 3) —
without raising. -/
theorem c1_counterexample :
    (globPdfs fsC1 (cfgEx.pdfRoot ++ parsePath "docs")).length = 4 ∧
    ((globPdfs fsC1 (cfgEx.pdfRoot ++ parsePath "docs")).filter
      (fun p => docOk fsC1 p)).length = 3 ∧
    (convert_pdfs cfgEx netAll fsC1 "docs" true).1 = .ok [] := by decide

/-- Claim C1 amended: on a document failure `convert_pdfs` logs the error and
returns without raising, but it stops at the first failing document instead of
skipping it: for every directory of documents (with distinct mapping keys),
the call returns normally and the mapping keys are exactly the documents
preceding the first failure in discovery order, so for 3 valid documents and
1 corrupt one the entry count is the number of valid documents before the
corrupt one. -/
theorem c1_amended_stop_at_first_failure (cfg : Config) (netOk : Path → Bool)
    (fs : FS) (dir : String)
    (hdir : isDir fs (cfg.pdfRoot ++ parsePath dir) = true)
    (hkeys : ((globPdfs fs (cfg.pdfRoot ++ parsePath dir)).map (keyOf cfg)).Nodup) :
    isOkE (convert_pdfs cfg netOk fs dir true).1 = true ∧
    mapKeysE (convert_pdfs cfg netOk fs dir true).1
      = ((globPdfs fs (cfg.pdfRoot ++ parsePath dir)).takeWhile
          (fun p => docOk fs p)).map (keyOf cfg) := by
  have hroot : ∀ p ∈ globPdfs fs (cfg.pdfRoot ++ parsePath dir),
      hasRoot p cfg.pdfRoot = true :=
    fun p hp => hasRoot_transHead cfg.pdfRoot (parsePath dir) p (glob_hasRoot fs _ p hp)
  have hkeys' : (([] : List (String × List String)).map (fun e => e.1)
      ++ (globPdfs fs (cfg.pdfRoot ++ parsePath dir)).map (keyOf cfg)).Nodup := by
    simpa using hkeys
  have hk := convertLoop_keys cfg netOk dir (globPdfs fs (cfg.pdfRoot ++ parsePath dir))
    fs [] hroot hkeys'
  constructor
  · simp [convert_pdfs, hdir, isOkE]
  · simp only [convert_pdfs, hdir, if_true, mapKeysE]
    simpa using hk

/-- Witness for the amended claim C1 at a concrete input: with the corrupt
document first, the mapping keys are exactly the (empty) successful prefix of
discovery order. -/
theorem c1_witness :
    isDir fsC1 (cfgEx.pdfRoot ++ parsePath "docs") = true ∧
    ((globPdfs fsC1 (cfgEx.pdfRoot ++ parsePath "docs")).map (keyOf cfgEx)).Nodup ∧
    (isOkE (convert_pdfs cfgEx netAll fsC1 "docs" true).1 = true ∧
      mapKeysE (convert_pdfs cfgEx netAll fsC1 "docs" true).1
        = ((globPdfs fsC1 (cfgEx.pdfRoot ++ parsePath "docs")).takeWhile
            (fun p => docOk fsC1 p)).map (keyOf cfgEx)) :=
  ⟨by decide, by decide,
    c1_amended_stop_at_first_failure cfgEx netAll fsC1 "docs" (by decide) (by decide)⟩

/-! ## Claim C3 -/

/-- Claim C3 is false as stated: page images are named
`{documentStem}_{pageNumber}.png` with an underscore (src/pdf2pics.py line
85), not `{documentStem}-{pageNumber}.png` with a hyphen: for a one-page
document `d.pdf`, the returned relative path is `x/d_1.png` and the file
`o/x/d_1.png` is written, while no file named `d-1.png` exists. -/
theorem c3_counterexample :
    (convert_pdf_to_images cfgEx netAll fsC3 ["r","d.pdf"] ["o","x"] false).result
      = .ok ["x/d_1.png"] ∧
    (convert_pdf_to_images cfgEx netAll fsC3 ["r","d.pdf"] ["o","x"] false).result
      ≠ .ok ["x/d-1.png"] ∧
    lookupImage (convert_pdf_to_images cfgEx netAll fsC3 ["r","d.pdf"] ["o","x"] false).fs
      ["o","x","d_1.png"] = some ⟨8, 12, [7]⟩ ∧
    lookupImage (convert_pdf_to_images cfgEx netAll fsC3 ["r","d.pdf"] ["o","x"] false).fs
      ["o","x","d-1.png"] = none := by decide

/-- Claim C3 amended: for every document with `N` renderable pages the
renderer produces exactly `N` PNG files named `{documentStem}_{pageNumber}.png`
(underscore, 1-based page numbers), returned as paths relative to the output
root in ascending page order, each written image having pixel dimensions equal
to the page's native dimensions scaled by the zoom factor 4, and the output
directory together with all its parents is created. -/
theorem c3_amended_rendering (cfg : Config) (netOk : Path → Bool) (fs : FS)
    (pdf outDir : Path) (doc : PdfDoc)
    (hdoc : lookupFile fs pdf = some (some doc))
    (hrend : doc.pages.all (fun pg => pg.renderable) = true)
    (hout : hasRoot outDir cfg.outputRoot = true) :
    (convert_pdf_to_images cfg netOk fs pdf outDir false).result
      = .ok (doc.pages.enum.map (fun e =>
          pathToString (outDir.drop cfg.outputRoot.length
            ++ [pngName (stemOf (baseName pdf)) (e.1 + 1)]))) ∧
    (convert_pdf_to_images cfg netOk fs pdf outDir false).writes
      = doc.pages.enum.map (fun e =>
          (outDir ++ [pngName (stemOf (baseName pdf)) (e.1 + 1)], renderPage e.2 zoom)) ∧
    (convert_pdf_to_images cfg netOk fs pdf outDir false).writes.map
        (fun w => (w.2.width, w.2.height))
      = doc.pages.map (fun pg => (pg.width * zoom, pg.height * zoom)) ∧
    (∀ q : Path, hasRoot outDir q = true →
      q ∈ (convert_pdf_to_images cfg netOk fs pdf outDir false).fs.dirs) := by
  have hsp := rp_spec cfg.outputRoot (stemOf (baseName pdf)) outDir hout doc.pages 0
    (mkdirP fs outDir) hrend
  refine ⟨?_, ?_, ?_, ?_⟩
  · simp [convert_pdf_to_images, hdoc, hsp, List.enum]
  · simp [convert_pdf_to_images, hdoc, hsp, List.enum]
  · simp only [convert_pdf_to_images, hdoc, hsp, Bool.false_eq_true, if_false]
    conv_rhs => rw [← List.enumFrom_map_snd 0 doc.pages]
    simp only [List.map_map]
    rfl
  · intro q hq
    simp only [convert_pdf_to_images, hdoc, hsp, Bool.false_eq_true, if_false]
    simp only [mkdirP]
    exact List.mem_append.mpr (Or.inl (mem_prefixesOf outDir q hq))

/-- Witness for the amended claim C3 at a concrete one-page document. -/
theorem c3_witness :
    lookupFile fsC3 ["r","d.pdf"] = some (some docA) ∧
    docA.pages.all (fun pg => pg.renderable) = true ∧
    hasRoot ["o","x"] cfgEx.outputRoot = true ∧
    ((convert_pdf_to_images cfgEx netAll fsC3 ["r","d.pdf"] ["o","x"] false).result
      = .ok (docA.pages.enum.map (fun e =>
          pathToString ((["o","x"] : Path).drop cfgEx.outputRoot.length
            ++ [pngName (stemOf (baseName ["r","d.pdf"])) (e.1 + 1)]))) ∧
    (convert_pdf_to_images cfgEx netAll fsC3 ["r","d.pdf"] ["o","x"] false).writes
      = docA.pages.enum.map (fun e =>
          ((["o","x"] : Path) ++ [pngName (stemOf (baseName ["r","d.pdf"])) (e.1 + 1)],
            renderPage e.2 zoom)) ∧
    (convert_pdf_to_images cfgEx netAll fsC3 ["r","d.pdf"] ["o","x"] false).writes.map
        (fun w => (w.2.width, w.2.height))
      = docA.pages.map (fun pg => (pg.width * zoom, pg.height * zoom)) ∧
    (∀ q : Path, hasRoot ["o","x"] q = true →
      q ∈ (convert_pdf_to_images cfgEx netAll fsC3 ["r","d.pdf"] ["o","x"] false).fs.dirs)) :=
  ⟨by decide, by decide, by decide,
    c3_amended_rendering cfgEx netAll fsC3 ["r","d.pdf"] ["o","x"] docA
      (by decide) (by decide) (by decide)⟩

/-! ## Claim C7 -/

/-- Claim C7 (confirmed): per-document atomicity of the mapping — every entry
present in a `convert_pdfs` result is the complete list returned by that
document's conversion in the state at its turn (assigned in a single `dict`
store), and a document whose conversion fails contributes no key at all. -/
theorem c7_atomic_entries (cfg : Config) (netOk : Path → Bool) (fs : FS)
    (dir : String)
    (hdir : isDir fs (cfg.pdfRoot ++ parsePath dir) = true)
    (hkeys : ((globPdfs fs (cfg.pdfRoot ++ parsePath dir)).map (keyOf cfg)).Nodup) :
    (∀ kv ∈ mapEntriesE (convert_pdfs cfg netOk fs dir true).1,
      ∃ (pdf : Path) (fsi : FS), pdf ∈ globPdfs fs (cfg.pdfRoot ++ parsePath dir) ∧
        kv.1 = keyOf cfg pdf ∧
        (convert_pdf_to_images cfg netOk fsi pdf (outSubdirFor cfg dir pdf) true).result
          = .ok kv.2) ∧
    (∀ pdf ∈ globPdfs fs (cfg.pdfRoot ++ parsePath dir), docOk fs pdf = false →
      keyOf cfg pdf ∉ mapKeysE (convert_pdfs cfg netOk fs dir true).1) := by
  have hroot : ∀ p ∈ globPdfs fs (cfg.pdfRoot ++ parsePath dir),
      hasRoot p cfg.pdfRoot = true :=
    fun p hp => hasRoot_transHead cfg.pdfRoot (parsePath dir) p (glob_hasRoot fs _ p hp)
  constructor
  · intro kv hkv
    simp only [convert_pdfs, hdir, if_true, mapEntriesE] at hkv
    rcases convertLoop_mem cfg netOk dir _ fs [] kv hkv with hin
      | ⟨pdf, fsi, rel, hmem, h1, h2, h3⟩
    · simp at hin
    · refine ⟨pdf, fsi, hmem, ?_, h3⟩
      have hre : relativeTo cfg.pdfRoot pdf = some (pdf.drop cfg.pdfRoot.length) :=
        relativeTo_eq cfg.pdfRoot pdf (hroot pdf hmem)
      rw [h1] at hre
      rw [h2, Option.some.inj hre]
      rfl
  · intro pdf hmem hdo hin
    have hkeys' : (([] : List (String × List String)).map (fun e => e.1)
        ++ (globPdfs fs (cfg.pdfRoot ++ parsePath dir)).map (keyOf cfg)).Nodup := by
      simpa using hkeys
    have hk := convertLoop_keys cfg netOk dir (globPdfs fs (cfg.pdfRoot ++ parsePath dir))
      fs [] hroot hkeys'
    simp only [convert_pdfs, hdir, if_true, mapKeysE] at hin
    rw [hk] at hin
    simp only [List.map_nil, List.nil_append] at hin
    rcases List.mem_map.mp hin with ⟨q, hq, hqe⟩
    have hql : q ∈ globPdfs fs (cfg.pdfRoot ++ parsePath dir) :=
      takeWhileMem (fun p => docOk fs p) _ q hq
    have hqok : docOk fs q = true := List.mem_takeWhile_imp hq
    have hqp : q = pdf := List.inj_on_of_nodup_map hkeys hql hmem hqe
    rw [hqp] at hqok
    simp [hqok] at hdo

/-- Witness for claim C7 at a concrete input: a directory with a valid, then a
corrupt, then another valid document. -/
theorem c7_witness :
    isDir fsC7 (cfgEx.pdfRoot ++ parsePath "w") = true ∧
    ((globPdfs fsC7 (cfgEx.pdfRoot ++ parsePath "w")).map (keyOf cfgEx)).Nodup ∧
    ((∀ kv ∈ mapEntriesE (convert_pdfs cfgEx netAll fsC7 "w" true).1,
      ∃ (pdf : Path) (fsi : FS), pdf ∈ globPdfs fsC7 (cfgEx.pdfRoot ++ parsePath "w") ∧
        kv.1 = keyOf cfgEx pdf ∧
        (convert_pdf_to_images cfgEx netAll fsi pdf (outSubdirFor cfgEx "w" pdf) true).result
          = .ok kv.2) ∧
    (∀ pdf ∈ globPdfs fsC7 (cfgEx.pdfRoot ++ parsePath "w"), docOk fsC7 pdf = false →
      keyOf cfgEx pdf ∉ mapKeysE (convert_pdfs cfgEx netAll fsC7 "w" true).1)) :=
  ⟨by decide, by decide,
    c7_atomic_entries cfgEx netAll fsC7 "w" (by decide) (by decide)⟩

/-! ## Claim C8 -/

/-- Claim C8 is false as stated: the renderer was claimed to release the
document handle on every exit path, but `doc.close()` is only reached after
the page loop (src/pdf2pics.py line 90, not in a `finally`): for a document
whose page fails to render, the function exits via the error with the handle
opened and not closed. -/
theorem c8_counterexample :
    (convert_pdf_to_images cfgEx netAll fsC8 ["r","bad.pdf"] ["o","b"] false).opened = true ∧
    (convert_pdf_to_images cfgEx netAll fsC8 ["r","bad.pdf"] ["o","b"] false).closed = false := by
  decide

/-- Claim C8 amended: whenever the document was opened, the handle is closed
if and only if the call returns normally — it is closed before the upload step
on the success path, but an error raised while rendering or writing a page
leaves the handle open. -/
theorem c8_amended_close_iff_ok (cfg : Config) (netOk : Path → Bool) (fs : FS)
    (pdf outDir : Path) (ret : Bool)
    (h : (convert_pdf_to_images cfg netOk fs pdf outDir ret).opened = true) :
    (convert_pdf_to_images cfg netOk fs pdf outDir ret).closed
      = isOkE (convert_pdf_to_images cfg netOk fs pdf outDir ret).result := by
  rcases hl : lookupFile fs pdf with _ | (_ | doc)
  · simp [convert_pdf_to_images, hl] at h
  · simp [convert_pdf_to_images, hl] at h
  · cases ho : (renderPages cfg.outputRoot (stemOf (baseName pdf)) outDir doc.pages 0
        (mkdirP fs outDir)).result with
    | error e => simp [convert_pdf_to_images, hl, ho, isOkE]
    | ok imgs => cases ret <;> simp [convert_pdf_to_images, hl, ho, isOkE]

/-- Witness for the amended claim C8 on a successfully rendered document. -/
theorem c8_witness :
    (convert_pdf_to_images cfgEx netAll fsGood ["r","g.pdf"] ["o","g"] false).opened = true ∧
    (convert_pdf_to_images cfgEx netAll fsGood ["r","g.pdf"] ["o","g"] false).closed
      = isOkE (convert_pdf_to_images cfgEx netAll fsGood ["r","g.pdf"] ["o","g"] false).result :=
  ⟨by decide, c8_amended_close_iff_ok cfgEx netAll fsGood ["r","g.pdf"] ["o","g"] false (by decide)⟩

/-! ## Claim C9 -/

/-- Claim C9 (confirmed): local conversion is idempotent — for a readable
document, running `convert_pdf` twice with `return_pic_url = false` returns
the same mapping and performs exactly the same writes (same output paths, same
image bytes), the rasteriser and PNG encoder being deterministic capabilities. -/
theorem c9_idempotent (cfg : Config) (netOk : Path → Bool) (fs : FS)
    (name : String) (doc : PdfDoc)
    (hdoc : lookupFile fs (cfg.pdfRoot ++ parsePath name) = some (some doc)) :
    (convert_pdf cfg netOk (convert_pdf cfg netOk fs name false).fs name false).result
      = (convert_pdf cfg netOk fs name false).result ∧
    (convert_pdf cfg netOk (convert_pdf cfg netOk fs name false).fs name false).writes
      = (convert_pdf cfg netOk fs name false).writes := by
  simp only [convert_pdf]
  have hfiles : (convert_pdf_to_images cfg netOk fs (cfg.pdfRoot ++ parsePath name)
      (cfg.outputRoot ++ [md5hex name]) false).fs.files = fs.files :=
    conv_files cfg netOk fs (cfg.pdfRoot ++ parsePath name)
      (cfg.outputRoot ++ [md5hex name]) false
  have hlk := lookupFile_congr _ fs (cfg.pdfRoot ++ parsePath name) hfiles
  obtain ⟨hres, hwr⟩ := conv_indep_noupload cfg netOk (cfg.pdfRoot ++ parsePath name)
    (cfg.outputRoot ++ [md5hex name]) fs
    (convert_pdf_to_images cfg netOk fs (cfg.pdfRoot ++ parsePath name)
      (cfg.outputRoot ++ [md5hex name]) false).fs hlk
  exact ⟨by rw [hres], hwr⟩

/-- Witness for claim C9 on a concrete readable one-page document. -/
theorem c9_witness :
    lookupFile fsGood (cfgEx.pdfRoot ++ parsePath "g.pdf") = some (some docA) ∧
    ((convert_pdf cfgEx netAll (convert_pdf cfgEx netAll fsGood "g.pdf" false).fs
        "g.pdf" false).result
      = (convert_pdf cfgEx netAll fsGood "g.pdf" false).result ∧
    (convert_pdf cfgEx netAll (convert_pdf cfgEx netAll fsGood "g.pdf" false).fs
        "g.pdf" false).writes
      = (convert_pdf cfgEx netAll fsGood "g.pdf" false).writes) :=
  ⟨by decide, c9_idempotent cfgEx netAll fsGood "g.pdf" docA (by decide)⟩

end Pdf2Pics
